import Mathlib

/-!
Shallow embedding of `src/main.py` (a VK → Yandex.Disk photo-album backup
script) and proofs about its specification.

Modelling conventions:
* Python dicts arriving from the network are modelled as structures whose
  fields are `Option`-valued: `none` models an absent key, mirroring the
  pervasive `dict.get(key, default)` pattern of the source.
* A Python statement that can raise is modelled by an `Option` result:
  `none` models an uncaught exception propagating out of the call.
* `f"{likes}.jpg"`-style formatting of a non-negative integer is modelled by
  `Nat.repr`, Lean's decimal rendering, matching Python `str` on naturals.
* Network effects of `backup_album` are modelled by an explicit trace of
  `CallEvent`s; the remote servers' replies are an arbitrary type `ρ`
  supplied by a `StorageClient ρ`, since the source discards them.
-/

namespace VKBackup

/-- Model of one element of an item's `sizes` list: a Python dict with
optional keys `url` and `type` (source: the dicts read at lines 103-104). -/
structure SizeEntry where
  url : Option String
  type : Option String
deriving DecidableEq, Repr

/-- Model of the `likes` sub-dict of an album item, optional key `count`. -/
structure LikesObj where
  count : Option Nat
deriving DecidableEq, Repr

/-- Model of one element of the album's `items` list: optional keys
`sizes`, `likes`, `date` (the only keys `proccess_album` reads). -/
structure AlbumItem where
  sizes : Option (List SizeEntry)
  likes : Option LikesObj
  date : Option Nat
deriving DecidableEq, Repr

/-- Model of the album mapping passed to `proccess_album`: optional key
`items`. -/
structure Album where
  items : Option (List AlbumItem)
deriving DecidableEq, Repr

/-- Model of the descriptor dict built at lines 103-113 of the source:
keys `url`, `size`, `file_name`, always all present. -/
structure Descriptor where
  url : String
  size : String
  file_name : String
deriving DecidableEq, Repr

/-- Model of one report entry dict built at lines 129-130 of the source:
keys `file_name` and `size`. -/
structure ReportEntry where
  file_name : String
  size : String
deriving DecidableEq, Repr

/-- Model of the value returned by `backup_album` (line 133):
the dict `{"report": [...]}`. -/
structure Report where
  report : List ReportEntry
deriving DecidableEq, Repr

/-- Source line 102: `album.get("items", [])`. -/
def albumItems (album : Album) : List AlbumItem :=
  album.items.getD []

/-- Source lines 103-104: `item.get("sizes", [])`. -/
def itemSizes (item : AlbumItem) : List SizeEntry :=
  item.sizes.getD []

/-- Source line 105: `item.get("likes", {}).get("count", 0)`. -/
def itemLikes (item : AlbumItem) : Nat :=
  ((item.likes.getD ⟨none⟩).count).getD 0

/-- Source line 111: `item.get("date", 0)`. -/
def itemDate (item : AlbumItem) : Nat :=
  item.date.getD 0

/-- Source line 108: the file name `f'{likes}.jpg'`. -/
def baseName (likes : Nat) : String :=
  Nat.repr likes ++ ".jpg"

/-- Source line 111: the file name `f'{likes}_{item.get("date", 0)}.jpg'`. -/
def dupName (likes date : Nat) : String :=
  Nat.repr likes ++ "_" ++ Nat.repr date ++ ".jpg"

/-- Body of the `for idx, item in zip(range(count), ...)` loop of
`proccess_album` (source lines 102-113), with the mutable `likes_set`
threaded explicitly.  `item.get("sizes", [])[-1]` raises `IndexError` on an
empty list, modelled by the `none` result; `[-1]` itself is `getLast?`. -/
def proccessLoop : List AlbumItem → List Nat → Option (List Descriptor)
  | [], _ => some []
  | item :: rest, likes_set =>
    match (itemSizes item).getLast? with
    | none => none
    | some sz =>
      let likes := itemLikes item
      let fname :=
        if likes ∈ likes_set then dupName likes (itemDate item)
        else baseName likes
      let likes_set' :=
        if likes ∈ likes_set then likes_set else likes :: likes_set
      match proccessLoop rest likes_set' with
      | none => none
      | some res =>
        some ({ url := sz.url.getD "", size := sz.type.getD "",
                file_name := fname } :: res)

/-- The items actually visited by the loop: `zip(range(count), items)`
truncates to the first `count` items (and to none at all when `count ≤ 0`,
since `range` of a non-positive integer is empty). -/
def processedItems (album : Album) (count : Int) : List AlbumItem :=
  (albumItems album).take count.toNat

/-- Source lines 96-115, `proccess_album(album, count)`.  Returns `none`
when the Python function would raise (some visited item's size list is
empty), otherwise `some` of the descriptor list it returns. -/
def proccess_album (album : Album) (count : Int) : Option (List Descriptor) :=
  proccessLoop (processedItems album count) []

/-- One observable remote call made by `backup_album`. -/
inductive CallEvent where
  | makeDir (path : String)
  | uploadUrl (path url : String)
deriving DecidableEq, Repr

/-- Model of the `YADISKclient` instance as seen by `backup_album`: two
request methods returning server replies of some arbitrary type `ρ`
(the source never inspects them). -/
structure StorageClient (ρ : Type) where
  make_dir : String → ρ
  upload_url : String → String → ρ

/-- Body of the `for item in tqdm(album)` loop of `backup_album`
(source lines 125-130): issue one upload call, record it in the trace, and
append one report entry unconditionally. -/
def backupStep {ρ : Type} (client : StorageClient ρ) (path : String)
    (acc : List CallEvent × List ReportEntry) (item : Descriptor) :
    List CallEvent × List ReportEntry :=
  let url := item.url
  let file_path := path ++ "/" ++ item.file_name
  let _resp := client.upload_url file_path url
  (acc.1 ++ [CallEvent.uploadUrl file_path url],
   acc.2 ++ [{ file_name := item.file_name, size := item.size }])

/-- Source lines 118-133, `backup_album(client, album, path)`: one
`make_dir` call, then the upload loop; returns the trace of remote calls
together with the `{"report": [...]}` value of line 133.  The `make_dir`
reply is bound and discarded exactly as in the source (line 122). -/
def backup_album {ρ : Type} (client : StorageClient ρ)
    (album : List Descriptor) (path : String) : List CallEvent × Report :=
  let _make_dir := client.make_dir path
  let res := album.foldl (backupStep client path) ([CallEvent.makeDir path], [])
  (res.1, { report := res.2 })

/-- JSON values, as decoded by Python's `json` module / `response.json()`. -/
inductive Json where
  | null : Json
  | bool (b : Bool) : Json
  | num (n : Int) : Json
  | str (s : String) : Json
  | arr (elems : List Json) : Json
  | obj (fields : List (String × Json)) : Json

/-- Python `dict.get(key)` on a decoded JSON object, modelled on the field
list (keys of a Python dict are unique, so first-match lookup is faithful). -/
def dictGet (fields : List (String × Json)) (key : String) : Option Json :=
  match fields with
  | [] => none
  | (k, v) :: rest => if k = key then some v else dictGet rest key

/-- Source line 59, the result computation of `VKclient.get_album`:
`response.json().get("response", {})`.  A `.get` call on a decoded body
that is not a JSON object raises `AttributeError`, modelled by `none`. -/
def get_album_response (body : Json) : Option Json :=
  match body with
  | Json.obj fields => some ((dictGet fields "response").getD (Json.obj []))
  | _ => none

/-- JSON encoding of one report entry dict, as `json.dump` serializes the
dicts built at lines 129-130. -/
def entryToJson (e : ReportEntry) : Json :=
  Json.obj [("file_name", Json.str e.file_name), ("size", Json.str e.size)]

/-- JSON encoding of the value passed to `json.dump` at line 158: the
`{"report": [...]}` dict returned by `backup_album`. -/
def reportToJson (r : Report) : Json :=
  Json.obj [("report", Json.arr (r.report.map entryToJson))]

/-- Decoding of one report entry from parsed-back JSON. -/
def jsonToEntry : Json → Option ReportEntry
  | Json.obj fields =>
    match dictGet fields "file_name", dictGet fields "size" with
    | some (Json.str f), some (Json.str s) =>
      some { file_name := f, size := s }
    | _, _ => none
  | _ => none

/-- Decoding of a list of report entries from parsed-back JSON. -/
def jsonToEntries : List Json → Option (List ReportEntry)
  | [] => some []
  | j :: rest =>
    match jsonToEntry j, jsonToEntries rest with
    | some e, some es => some (e :: es)
    | _, _ => none

/-- Decoding of a whole report file from parsed-back JSON. -/
def jsonToReport : Json → Option Report
  | Json.obj fields =>
    match dictGet fields "report" with
    | some (Json.arr elems) =>
      (jsonToEntries elems).map (fun es => { report := es })
    | _ => none
  | _ => none

/-- Decimal digit characters of a natural number, most significant first: a
fuel-free restatement of core's `Nat.toDigitsCore` at base 10, used to
reason about `Nat.repr`. -/
def decChars (n : Nat) : List Char :=
  if _h : n < 10 then [Nat.digitChar n]
  else decChars (n / 10) ++ [Nat.digitChar (n % 10)]
termination_by n
decreasing_by
  exact Nat.div_lt_self (by omega) (by decide)

/-- Spec-side name sequence of the deduplication rule: the file names the
loop of `proccess_album` assigns, given the set of like-counts already
seen. -/
def nameSeq : List AlbumItem → List Nat → List String
  | [], _ => []
  | item :: rest, likes_set =>
    let likes := itemLikes item
    (if likes ∈ likes_set then dupName likes (itemDate item)
     else baseName likes) ::
      nameSeq rest (if likes ∈ likes_set then likes_set else likes :: likes_set)

/-- A size entry with both fields present, for concrete test albums. -/
def sz (u t : String) : SizeEntry :=
  { url := some u, type := some t }

/-- An album item with all fields present, for concrete test albums. -/
def mkItem (sizes : List SizeEntry) (likes date : Nat) : AlbumItem :=
  { sizes := some sizes, likes := some ⟨some likes⟩, date := some date }

/-- Concrete album of the spec's worked scenario (§8). -/
def scenarioAlbum : Album :=
  { items := some [mkItem [sz "a" "x", sz "b" "y"] 3 100,
                   mkItem [sz "c" "z"] 3 200] }

/-- Concrete album with one item whose `sizes` list is empty. -/
def emptySizesAlbum : Album :=
  { items := some [mkItem [] 1 1] }

/-- Concrete album: three items all sharing like-count 3 and date 7. -/
def tripleShareAlbum : Album :=
  { items := some [mkItem [sz "u1" "t1"] 3 7,
                   mkItem [sz "u2" "t2"] 3 7,
                   mkItem [sz "u3" "t3"] 3 7] }

/-- Concrete album: two items share like-count 3, a third has like-count 5. -/
def mixedLikesAlbum : Album :=
  { items := some [mkItem [sz "u1" "t1"] 3 1,
                   mkItem [sz "u2" "t2"] 3 2,
                   mkItem [sz "u3" "t3"] 5 3] }

/-- Concrete album with an item lacking `url` and `type` in its last size. -/
def missingFieldsAlbum : Album :=
  { items := some [{ sizes := some [{ url := none, type := none }],
                     likes := none, date := none }] }

/-! ## Decimal-digit infrastructure for `Nat.repr` -/

/-- Characters rendered for digits below ten are injective. -/
theorem digitChar_lt_ten_inj :
    ∀ m < 10, ∀ n < 10, Nat.digitChar m = Nat.digitChar n → m = n := by decide

/-- Characters rendered for digits below ten are decimal digit characters. -/
theorem digitChar_isDigit : ∀ n < 10, (Nat.digitChar n).isDigit = true := by decide

/-- A decimal rendering is never empty. -/
theorem decChars_ne_nil (n : Nat) : decChars n ≠ [] := by
  rw [decChars]; split <;> simp

/-- Every character of a decimal rendering is a digit character. -/
theorem isDigit_of_mem_decChars :
    ∀ n : Nat, ∀ c ∈ decChars n, c.isDigit = true := by
  intro n
  induction n using Nat.strong_induction_on with
  | _ n ih =>
    intro c hc
    rw [decChars] at hc
    split at hc
    · next h =>
      simp only [List.mem_singleton] at hc
      subst hc
      exact digitChar_isDigit n h
    · next h =>
      rcases List.mem_append.mp hc with h1 | h2
      · exact ih (n / 10) (Nat.div_lt_self (by omega) (by decide)) c h1
      · simp only [List.mem_singleton] at h2
        subst h2
        exact digitChar_isDigit _ (Nat.mod_lt _ (by decide))

/-- The underscore character never occurs in a decimal rendering. -/
theorem underscore_not_mem_decChars (n : Nat) : '_' ∉ decChars n := fun h =>
  absurd (isDigit_of_mem_decChars n '_' h) (by decide)

/-- Decimal renderings are injective. -/
theorem decChars_inj : ∀ m n : Nat, decChars m = decChars n → m = n := by
  intro m
  induction m using Nat.strong_induction_on with
  | _ m ih =>
    intro n h
    by_cases hm : m < 10 <;> by_cases hn : n < 10
    · rw [decChars, dif_pos hm] at h
      conv at h => rhs; rw [decChars, dif_pos hn]
      simp only [List.cons.injEq, and_true] at h
      exact digitChar_lt_ten_inj m hm n hn h
    · rw [decChars, dif_pos hm] at h
      conv at h => rhs; rw [decChars, dif_neg hn]
      exfalso
      have hlen := congrArg List.length h
      rw [List.length_append] at hlen
      have hne := decChars_ne_nil (n / 10)
      cases hq : decChars (n / 10) with
      | nil => exact hne hq
      | cons a as =>
        rw [hq] at hlen
        simp [List.length_cons] at hlen
    · rw [decChars, dif_neg hm] at h
      conv at h => rhs; rw [decChars, dif_pos hn]
      exfalso
      have hlen := congrArg List.length h
      rw [List.length_append] at hlen
      have hne := decChars_ne_nil (m / 10)
      cases hq : decChars (m / 10) with
      | nil => exact hne hq
      | cons a as =>
        rw [hq] at hlen
        simp [List.length_cons] at hlen
    · rw [decChars, dif_neg hm] at h
      conv at h => rhs; rw [decChars, dif_neg hn]
      obtain ⟨h1, h2⟩ := List.append_inj' h rfl
      have hdiv := ih (m / 10) (Nat.div_lt_self (by omega) (by decide)) (n / 10) h1
      simp only [List.cons.injEq, and_true] at h2
      have hmod := digitChar_lt_ten_inj (m % 10) (Nat.mod_lt _ (by decide))
        (n % 10) (Nat.mod_lt _ (by decide)) h2
      omega

/-- Link between core's fuelled digit renderer and `decChars`. -/
theorem toDigitsCore_eq_decChars :
    ∀ fuel n acc, n < fuel →
      Nat.toDigitsCore 10 fuel n acc = decChars n ++ acc := by
  intro fuel
  induction fuel with
  | zero => exact fun n acc h => absurd h (Nat.not_lt_zero n)
  | succ fuel ih =>
    intro n acc h
    by_cases h10 : n / 10 = 0
    · have hn : n < 10 := by omega
      rw [decChars, dif_pos hn]
      simp [Nat.toDigitsCore, h10, Nat.mod_eq_of_lt hn]
    · have hn : ¬n < 10 := by omega
      rw [decChars, dif_neg hn]
      have hlt : n / 10 < fuel := by omega
      simp [Nat.toDigitsCore, h10, ih (n / 10) (Nat.digitChar (n % 10) :: acc) hlt]

/-- The character data of `Nat.repr` is exactly `decChars`. -/
theorem repr_data (n : Nat) : (Nat.repr n).data = decChars n := by
  show (List.asString (Nat.toDigitsCore 10 (n + 1) n [])).data = decChars n
  rw [toDigitsCore_eq_decChars (n + 1) n [] (Nat.lt_succ_self n)]
  simp [List.asString]

/-- Appending strings appends their character data. -/
theorem string_data_append (a b : String) : (a ++ b).data = a.data ++ b.data := rfl

/-- The character data of `".jpg"`. -/
def jpgChars : List Char := ['.', 'j', 'p', 'g']

/-- Character data of a base file name. -/
theorem baseName_data (l : Nat) :
    (baseName l).data = decChars l ++ jpgChars := by
  rw [baseName, string_data_append, repr_data]; rfl

/-- Character data of a deduplicated file name. -/
theorem dupName_data (l d : Nat) :
    (dupName l d).data = decChars l ++ '_' :: (decChars d ++ jpgChars) := by
  rw [dupName, string_data_append, string_data_append, string_data_append,
    repr_data, repr_data]
  simp [jpgChars]

/-- Base file names are injective in the like-count. -/
theorem baseName_inj {l l' : Nat} (h : baseName l = baseName l') : l = l' := by
  have hd := congrArg String.data h
  rw [baseName_data, baseName_data] at hd
  exact decChars_inj l l' (List.append_cancel_right hd)

/-- A base file name never coincides with a deduplicated file name. -/
theorem baseName_ne_dupName (l l' d' : Nat) : baseName l ≠ dupName l' d' := by
  intro h
  have hd := congrArg String.data h
  rw [baseName_data, dupName_data] at hd
  have hmem : '_' ∈ decChars l' ++ '_' :: (decChars d' ++ jpgChars) :=
    List.mem_append_right _ (List.mem_cons_self _ _)
  rw [← hd] at hmem
  rcases List.mem_append.mp hmem with h1 | h2
  · exact underscore_not_mem_decChars l h1
  · exact absurd h2 (by decide)

/-- Splitting two lists at their first underscore separator. -/
theorem sep_split : ∀ (a b r s : List Char), '_' ∉ a → '_' ∉ b →
    a ++ '_' :: r = b ++ '_' :: s → a = b ∧ r = s := by
  intro a
  induction a with
  | nil =>
    intro b r s _ hb h
    cases b with
    | nil =>
      simp only [List.nil_append, List.cons.injEq, true_and] at h
      exact ⟨rfl, h⟩
    | cons c b' =>
      simp only [List.nil_append, List.cons_append, List.cons.injEq] at h
      obtain ⟨h1, _⟩ := h
      exact absurd (h1 ▸ List.mem_cons_self c b') hb
  | cons c a' ih =>
    intro b r s ha hb h
    cases b with
    | nil =>
      simp only [List.nil_append, List.cons_append, List.cons.injEq] at h
      obtain ⟨h1, _⟩ := h
      exact absurd (h1.symm ▸ List.mem_cons_self c a') ha
    | cons c' b' =>
      simp only [List.cons_append, List.cons.injEq] at h
      obtain ⟨h1, h2⟩ := h
      have hrec := ih b' r s (fun hm => ha (List.mem_cons_of_mem _ hm))
        (fun hm => hb (List.mem_cons_of_mem _ hm)) h2
      exact ⟨by rw [h1, hrec.1], hrec.2⟩

/-- Deduplicated file names are injective in the like-count/date pair. -/
theorem dupName_inj {l d l' d' : Nat} (h : dupName l d = dupName l' d') :
    l = l' ∧ d = d' := by
  have hd := congrArg String.data h
  rw [dupName_data, dupName_data] at hd
  obtain ⟨h1, h2⟩ := sep_split _ _ _ _ (underscore_not_mem_decChars l)
    (underscore_not_mem_decChars l') hd
  exact ⟨decChars_inj _ _ h1, decChars_inj _ _ (List.append_cancel_right h2)⟩

/-! ## Lemmas about the `proccess_album` loop -/

/-- On success, the produced file names are exactly `nameSeq`. -/
theorem proccessLoop_names :
    ∀ (items : List AlbumItem) (seen : List Nat) (res : List Descriptor),
      proccessLoop items seen = some res →
      res.map (fun d => d.file_name) = nameSeq items seen := by
  intro items
  induction items with
  | nil =>
    intro seen res h
    simp only [proccessLoop, Option.some.injEq] at h
    subst h
    simp [nameSeq]
  | cons item rest ih =>
    intro seen res h
    simp only [proccessLoop] at h
    cases hl : (itemSizes item).getLast? with
    | none => rw [hl] at h; exact absurd h (by simp)
    | some s =>
      rw [hl] at h
      cases hr : proccessLoop rest
          (if itemLikes item ∈ seen then seen else itemLikes item :: seen) with
      | none => rw [hr] at h; exact absurd h (by simp)
      | some res' =>
        rw [hr] at h
        simp only [Option.some.injEq] at h
        subst h
        simp only [List.map_cons, nameSeq]
        exact congrArg _ (ih _ _ hr)

/-- The loop returns normally exactly when every visited item has a
non-empty size list. -/
theorem proccessLoop_isSome :
    ∀ (items : List AlbumItem) (seen : List Nat),
      (proccessLoop items seen).isSome = true ↔
        ∀ it ∈ items, itemSizes it ≠ [] := by
  intro items
  induction items with
  | nil => intro seen; simp [proccessLoop]
  | cons item rest ih =>
    intro seen
    simp only [proccessLoop]
    cases hl : (itemSizes item).getLast? with
    | none =>
      rw [List.getLast?_eq_none_iff] at hl
      simp [hl]
    | some s =>
      have hne : itemSizes item ≠ [] := by
        intro hq
        rw [hq] at hl
        exact absurd hl (by simp)
      cases hr : proccessLoop rest
          (if itemLikes item ∈ seen then seen else itemLikes item :: seen) with
      | none =>
        have := ih (if itemLikes item ∈ seen then seen else itemLikes item :: seen)
        rw [hr] at this
        simp only [Option.isSome_none, Bool.false_eq_true, false_iff] at this
        push_neg at this
        obtain ⟨it, hit, hsz⟩ := this
        simp only [Option.isSome_none, Bool.false_eq_true, false_iff]
        push_neg
        exact ⟨it, List.mem_cons_of_mem _ hit, hsz⟩
      | some res' =>
        have := ih (if itemLikes item ∈ seen then seen else itemLikes item :: seen)
        rw [hr] at this
        simp only [Option.isSome_some, true_iff] at this
        simp only [Option.isSome_some, true_iff]
        intro it hit
        rcases List.mem_cons.mp hit with rfl | hmem
        · exact hne
        · exact this it hmem

/-- On success, the url/size pair of each descriptor comes from the last
size entry of the corresponding item, in order. -/
theorem proccessLoop_shape :
    ∀ (items : List AlbumItem) (seen : List Nat) (res : List Descriptor),
      proccessLoop items seen = some res →
      res.map (fun d => some (d.url, d.size)) =
        items.map (fun it => ((itemSizes it).getLast?).map
          (fun s => (s.url.getD "", s.type.getD ""))) := by
  intro items
  induction items with
  | nil =>
    intro seen res h
    simp only [proccessLoop, Option.some.injEq] at h
    subst h
    simp
  | cons item rest ih =>
    intro seen res h
    simp only [proccessLoop] at h
    cases hl : (itemSizes item).getLast? with
    | none => rw [hl] at h; exact absurd h (by simp)
    | some s =>
      rw [hl] at h
      cases hr : proccessLoop rest
          (if itemLikes item ∈ seen then seen else itemLikes item :: seen) with
      | none => rw [hr] at h; exact absurd h (by simp)
      | some res' =>
        rw [hr] at h
        simp only [Option.some.injEq] at h
        subst h
        simp only [List.map_cons, hl, Option.map_some]
        exact congrArg _ (ih _ _ hr)

/-- On success, one descriptor is produced per visited item. -/
theorem proccessLoop_length :
    ∀ (items : List AlbumItem) (seen : List Nat) (res : List Descriptor),
      proccessLoop items seen = some res → res.length = items.length := by
  intro items seen res h
  have hshape := proccessLoop_shape items seen res h
  have hlen := congrArg List.length hshape
  simpa using hlen

/-- Membership in the updated seen-set of the deduplication loop. -/
theorem mem_updateSeen (x l : Nat) (seen : List Nat) :
    x ∈ (if l ∈ seen then seen else l :: seen) ↔ x = l ∨ x ∈ seen := by
  by_cases h : l ∈ seen
  · rw [if_pos h]
    constructor
    · exact Or.inr
    · rintro (rfl | hx)
      · exact h
      · exact hx
  · rw [if_neg h, List.mem_cons]

/-- Every name produced by `nameSeq` is the base or deduplicated name of
one of the items, and a base name only arises for an unseen like-count. -/
theorem mem_nameSeq :
    ∀ (items : List AlbumItem) (seen : List Nat) (n : String),
      n ∈ nameSeq items seen →
      ∃ it ∈ items,
        (n = baseName (itemLikes it) ∧ itemLikes it ∉ seen) ∨
        n = dupName (itemLikes it) (itemDate it) := by
  intro items
  induction items with
  | nil => intro seen n hn; simp [nameSeq] at hn
  | cons item rest ih =>
    intro seen n hn
    simp only [nameSeq] at hn
    by_cases hmem : itemLikes item ∈ seen
    · rw [if_pos hmem, if_pos hmem] at hn
      rcases List.mem_cons.mp hn with h | h
      · exact ⟨item, List.mem_cons_self _ _, Or.inr h⟩
      · obtain ⟨it, hit, hcase⟩ := ih seen n h
        exact ⟨it, List.mem_cons_of_mem _ hit, hcase⟩
    · rw [if_neg hmem, if_neg hmem] at hn
      rcases List.mem_cons.mp hn with h | h
      · exact ⟨item, List.mem_cons_self _ _, Or.inl ⟨h, hmem⟩⟩
      · obtain ⟨it, hit, hcase⟩ := ih (itemLikes item :: seen) n h
        refine ⟨it, List.mem_cons_of_mem _ hit, ?_⟩
        rcases hcase with ⟨h1, h2⟩ | h1
        · exact Or.inl ⟨h1, fun hm => h2 (List.mem_cons_of_mem _ hm)⟩
        · exact Or.inr h1

/-- The names produced by `nameSeq` are pairwise distinct, provided no two
items share both like-count and date. -/
theorem nameSeq_nodup :
    ∀ (items : List AlbumItem) (seen : List Nat),
      items.Pairwise
        (fun a b => itemLikes a ≠ itemLikes b ∨ itemDate a ≠ itemDate b) →
      (nameSeq items seen).Nodup := by
  intro items
  induction items with
  | nil => intro seen _; simp [nameSeq]
  | cons item rest ih =>
    intro seen hpw
    rw [List.pairwise_cons] at hpw
    obtain ⟨hhead, hrest⟩ := hpw
    simp only [nameSeq]
    by_cases hmem : itemLikes item ∈ seen
    · rw [if_pos hmem, if_pos hmem, List.nodup_cons]
      refine ⟨?_, ih seen hrest⟩
      intro hin
      obtain ⟨it, hit, hcase⟩ := mem_nameSeq rest seen _ hin
      rcases hcase with ⟨h1, _⟩ | h1
      · exact baseName_ne_dupName _ _ _ h1.symm
      · obtain ⟨he1, he2⟩ := dupName_inj h1
        rcases hhead it hit with hL | hD
        · exact hL he1
        · exact hD he2
    · rw [if_neg hmem, if_neg hmem, List.nodup_cons]
      refine ⟨?_, ih _ hrest⟩
      intro hin
      obtain ⟨it, hit, hcase⟩ := mem_nameSeq rest _ _ hin
      rcases hcase with ⟨h1, h2⟩ | h1
      · have heq := baseName_inj h1
        exact h2 (by rw [← heq]; exact List.mem_cons_self _ _)
      · exact baseName_ne_dupName _ _ _ h1

/-- Position-wise characterization of the deduplication rule: the name at
position `i` is the dated name exactly when the item's like-count occurs
in `seen` or among the like-counts of the earlier items. -/
theorem nameSeq_getElem? :
    ∀ (items : List AlbumItem) (seen : List Nat) (i : Nat) (it : AlbumItem),
      items[i]? = some it →
      (nameSeq items seen)[i]? = some
        (if itemLikes it ∈ seen ∨ itemLikes it ∈ (items.take i).map itemLikes
         then dupName (itemLikes it) (itemDate it)
         else baseName (itemLikes it)) := by
  intro items
  induction items with
  | nil => intro seen i it h; simp at h
  | cons item rest ih =>
    intro seen i it h
    cases i with
    | zero =>
      rw [List.getElem?_cons_zero, Option.some.injEq] at h
      subst h
      simp only [nameSeq, List.take_zero, List.map_nil, List.not_mem_nil,
        or_false, List.getElem?_cons_zero]
    | succ i =>
      rw [List.getElem?_cons_succ] at h
      simp only [nameSeq, List.getElem?_cons_succ]
      rw [ih _ i it h]
      congr 1
      refine if_congr ?_ rfl rfl
      rw [List.take_succ_cons, List.map_cons, List.mem_cons, mem_updateSeen]
      tauto

/-! ## Lemmas about `backup_album` and the report JSON -/

/-- Unfolding the upload fold of `backup_album`. -/
theorem backup_foldl {ρ : Type} (client : StorageClient ρ) (path : String) :
    ∀ (album : List Descriptor) (es : List CallEvent) (rs : List ReportEntry),
      album.foldl (backupStep client path) (es, rs) =
        (es ++ album.map
           (fun d => CallEvent.uploadUrl (path ++ "/" ++ d.file_name) d.url),
         rs ++ album.map
           (fun d => { file_name := d.file_name, size := d.size })) := by
  intro album
  induction album with
  | nil => intro es rs; simp
  | cons d rest ih =>
    intro es rs
    rw [List.foldl_cons]
    rw [show backupStep client path (es, rs) d =
      (es ++ [CallEvent.uploadUrl (path ++ "/" ++ d.file_name) d.url],
       rs ++ [{ file_name := d.file_name, size := d.size }]) from rfl]
    rw [ih]
    simp

/-- Decoding inverts encoding on entry lists. -/
theorem jsonToEntries_map (es : List ReportEntry) :
    jsonToEntries (es.map entryToJson) = some es := by
  induction es with
  | nil => rfl
  | cons e rest ih =>
    show (match jsonToEntry (entryToJson e), jsonToEntries (rest.map entryToJson) with
      | some e', some es' => some (e' :: es')
      | _, _ => none) = some (e :: rest)
    rw [show jsonToEntry (entryToJson e) = some e from rfl, ih]

/-- Decoding inverts encoding on whole reports. -/
theorem jsonToReport_reportToJson (r : Report) :
    jsonToReport (reportToJson r) = some r := by
  show (jsonToEntries (r.report.map entryToJson)).map
    (fun es => ({ report := es } : Report)) = some r
  rw [jsonToEntries_map]
  rfl

/-! ## Claim theorems -/

/-- C1 (amended): `proccess_album` returns normally if and only if every
processed item's size-variant list is non-empty; an empty or absent `sizes`
list makes the indexing `[-1]` raise instead of degrading to empty strings,
while all other missing fields degrade to defaults. -/
theorem c1_formatter_returns_iff_sizes_nonempty (album : Album) (count : Int) :
    (proccess_album album count).isSome = true ↔
      ∀ it ∈ processedItems album count, itemSizes it ≠ [] :=
  proccessLoop_isSome _ []

/-- C1 counterexample: on an album whose single item has an empty
size-variant list and count 1, `proccess_album` raises (produces no value)
instead of degrading url and size_tag to the empty string. -/
theorem c1_cex_empty_sizes_raise : proccess_album emptySizesAlbum 1 = none := rfl

/-- C2 (amended): for every album and count on which `proccess_album`
returns, if no two processed items share both their like-count and their
date, then the returned `file_name` values are pairwise distinct. -/
theorem c2_file_names_nodup (album : Album) (count : Int)
    (res : List Descriptor) (h : proccess_album album count = some res)
    (hpw : (processedItems album count).Pairwise
      (fun a b => itemLikes a ≠ itemLikes b ∨ itemDate a ≠ itemDate b)) :
    (res.map (fun d => d.file_name)).Nodup := by
  rw [proccessLoop_names _ _ _ h]
  exact nameSeq_nodup _ [] hpw

/-- C2 witness: the theorem applied to the spec's worked scenario. -/
theorem c2_witness :
    (([{ url := "b", size := "y", file_name := "3.jpg" },
       { url := "c", size := "z", file_name := "3_200.jpg" }] :
        List Descriptor).map (fun d => d.file_name)).Nodup :=
  c2_file_names_nodup scenarioAlbum 5 _ rfl (by decide)

/-- C2 counterexample: three items sharing like-count 3 and date 7 yield
the file names `3.jpg, 3_7.jpg, 3_7.jpg`, which are not pairwise unique. -/
theorem c2_cex_shared_like_and_date :
    (proccess_album tripleShareAlbum 5).map
        (fun res => res.map (fun d => d.file_name)) =
      some ["3.jpg", "3_7.jpg", "3_7.jpg"] ∧
    ¬ (["3.jpg", "3_7.jpg", "3_7.jpg"] : List String).Nodup :=
  ⟨rfl, by decide⟩

/-- C3: the report JSON written for the value returned by `backup_album`,
when parsed back, yields exactly the in-memory report entry list. -/
theorem c3_report_roundtrip {ρ : Type} (client : StorageClient ρ)
    (album : List Descriptor) (path : String) :
    jsonToReport (reportToJson (backup_album client album path).2) =
      some (backup_album client album path).2 :=
  jsonToReport_reportToJson _

/-- C4 (amended): for every positive count and every album on which
`proccess_album` returns, it returns exactly `min count n` descriptors
(`n` the number of items), whose url/size pairs are those of the last size
entries of the first items in source order. -/
theorem c4_count_and_order (album : Album) (count : Int)
    (res : List Descriptor) (hc : 0 < count)
    (h : proccess_album album count = some res) :
    (res.length : Int) = min count ((albumItems album).length : Int) ∧
    res.map (fun d => some (d.url, d.size)) =
      (processedItems album count).map
        (fun it => ((itemSizes it).getLast?).map
          (fun s => (s.url.getD "", s.type.getD ""))) := by
  refine ⟨?_, proccessLoop_shape _ _ _ h⟩
  have h1 : res.length = min count.toNat (albumItems album).length := by
    rw [proccessLoop_length _ _ _ h]
    simp [processedItems, List.length_take]
  rw [h1, Nat.cast_min, Int.toNat_of_nonneg (le_of_lt hc)]

/-- C4 witness: the theorem applied to the scenario album with count 2. -/
theorem c4_witness :
    ((([{ url := "b", size := "y", file_name := "3.jpg" },
        { url := "c", size := "z", file_name := "3_200.jpg" }] :
         List Descriptor).length : Int) =
      min (2 : Int) ((albumItems scenarioAlbum).length : Int)) :=
  (c4_count_and_order scenarioAlbum 2 _ (by decide) rfl).1

/-- C4 counterexample: with positive count 2 and a one-item album whose
item has an empty size list, the claim demands exactly `min 2 1 = 1`
descriptor, but the call raises and returns no descriptor list at all. -/
theorem c4_cex_raise_no_descriptors :
    proccess_album emptySizesAlbum 2 = none ∧
    min (2 : Int) ((albumItems emptySizesAlbum).length : Int) = 1 :=
  ⟨rfl, by decide⟩

/-- C5 (amended): on a successful run, the descriptor at position `i` is
named `<likes>_<date>.jpg` when its like-count occurs among the earlier
processed items and `<likes>.jpg` otherwise; consequently any two
processed items with distinct like-counts receive distinct file names
(but an already-seen like-count yields the dated pattern, not the base
pattern). -/
theorem c5_dedup_rule (album : Album) (count : Int) (res : List Descriptor)
    (h : proccess_album album count = some res) :
    (∀ i it d, (processedItems album count)[i]? = some it →
       res[i]? = some d →
       d.file_name =
         if itemLikes it ∈ ((processedItems album count).take i).map itemLikes
         then dupName (itemLikes it) (itemDate it)
         else baseName (itemLikes it)) ∧
    (∀ (i j : Nat) (di dj : Descriptor) (iti itj : AlbumItem),
       (processedItems album count)[i]? = some iti →
       (processedItems album count)[j]? = some itj →
       res[i]? = some di → res[j]? = some dj →
       itemLikes iti ≠ itemLikes itj → di.file_name ≠ dj.file_name) := by
  have hnames := proccessLoop_names _ _ _ h
  have hpos : ∀ i it d, (processedItems album count)[i]? = some it →
      res[i]? = some d →
      d.file_name =
        if itemLikes it ∈ ((processedItems album count).take i).map itemLikes
        then dupName (itemLikes it) (itemDate it)
        else baseName (itemLikes it) := by
    intro i it d hit hd
    have hseq := nameSeq_getElem? (processedItems album count) [] i it hit
    rw [← hnames, List.getElem?_map, hd] at hseq
    simp only [Option.map_some', Option.some.injEq] at hseq
    rw [hseq]
    refine if_congr ?_ rfl rfl
    simp
  refine ⟨hpos, ?_⟩
  intro i j di dj iti itj hii hij hdi hdj hne
  rw [hpos i iti di hii hdi, hpos j itj dj hij hdj]
  by_cases h1 : itemLikes iti ∈ ((processedItems album count).take i).map itemLikes <;>
    by_cases h2 : itemLikes itj ∈ ((processedItems album count).take j).map itemLikes
  · rw [if_pos h1, if_pos h2]
    intro heq
    exact hne (dupName_inj heq).1
  · rw [if_pos h1, if_neg h2]
    intro heq
    exact baseName_ne_dupName _ _ _ heq.symm
  · rw [if_neg h1, if_pos h2]
    intro heq
    exact baseName_ne_dupName _ _ _ heq
  · rw [if_neg h1, if_neg h2]
    intro heq
    exact hne (baseName_inj heq)

/-- C5 witness: in the mixed album, the dated name of the second item and
the base name of the third item (distinct like-counts 3 and 5) differ. -/
theorem c5_witness : ("3_2.jpg" : String) ≠ "5.jpg" :=
  (c5_dedup_rule mixedLikesAlbum 5 _ rfl).2 1 2
    { url := "u2", size := "t2", file_name := "3_2.jpg" }
    { url := "u3", size := "t3", file_name := "5.jpg" }
    (mkItem [sz "u2" "t2"] 3 2) (mkItem [sz "u3" "t3"] 5 3)
    rfl rfl rfl rfl (by decide)

/-- C5 counterexample: in the mixed album the second and third processed
items have distinct like-counts 3 and 5, yet the second item's file name
is `3_2.jpg`, not the `<likes>.jpg` pattern the claim asserts. -/
theorem c5_cex_mixed_album :
    (proccess_album mixedLikesAlbum 5).map
        (fun res => res.map (fun d => d.file_name)) =
      some ["3.jpg", "3_2.jpg", "5.jpg"] ∧
    (3 : Nat) ≠ 5 ∧ ("3_2.jpg" : String) ≠ baseName 3 :=
  ⟨rfl, by decide, by decide⟩

/-- C6: the spec's worked scenario: the two-item album with shared
like-count 3 and count 5 yields exactly the two expected descriptors. -/
theorem c6_scenario :
    proccess_album scenarioAlbum 5 =
      some [{ url := "b", size := "y", file_name := "3.jpg" },
            { url := "c", size := "z", file_name := "3_200.jpg" }] := rfl

/-- C7: `backup_album` performs exactly one `make_dir` call on the base
path followed by one `upload_url` call per descriptor in order, each on
`path ++ "/" ++ file_name`, and returns one report entry per descriptor in
the same order, for every storage client (so regardless of any reply). -/
theorem c7_backup_calls_and_report {ρ : Type} (client : StorageClient ρ)
    (album : List Descriptor) (path : String) :
    backup_album client album path =
      (CallEvent.makeDir path ::
         album.map (fun d =>
           CallEvent.uploadUrl (path ++ "/" ++ d.file_name) d.url),
       { report := album.map
           (fun d => { file_name := d.file_name, size := d.size }) }) := by
  simp [backup_album, backup_foldl]

/-- C8: an album with an empty items list yields an empty descriptor list,
`backup_album` on that empty list still issues exactly the one `make_dir`
call, and the resulting report has zero entries. -/
theorem c8_empty_items {ρ : Type} (client : StorageClient ρ) (count : Int)
    (path : String) :
    proccess_album { items := some [] } count = some [] ∧
    backup_album client [] path =
      ([CallEvent.makeDir path], { report := [] }) := by
  constructor
  · simp [proccess_album, processedItems, albumItems, proccessLoop]
  · rfl

/-- C9 (amended): for every decoded JSON body that is an object, the
result computation of `get_album` returns the body's `response` field, or
an empty mapping if that field is absent; a non-object body instead makes
the `.get` attribute lookup raise. -/
theorem c9_get_album_returns_response_or_empty
    (fields : List (String × Json)) :
    (∀ v, dictGet fields "response" = some v →
        get_album_response (Json.obj fields) = some v) ∧
    (dictGet fields "response" = none →
        get_album_response (Json.obj fields) = some (Json.obj [])) := by
  constructor
  · intro v hv
    simp [get_album_response, hv]
  · intro hv
    simp [get_album_response, hv]

/-- C9 witness: the theorem applied to a body with a `response` field. -/
theorem c9_witness :
    get_album_response (Json.obj [("response", Json.num 7)]) =
      some (Json.num 7) :=
  (c9_get_album_returns_response_or_empty [("response", Json.num 7)]).1
    (Json.num 7) rfl

/-- C9 counterexample: on a decoded JSON body that is an array, the code
raises `AttributeError` (no value) instead of returning an empty mapping. -/
theorem c9_cex_nonobject_body : get_album_response (Json.arr []) = none := rfl

/-- C10: for every album mapping and every count less than or equal to
zero, `proccess_album` returns the empty list, because the zip with
`range(count)` visits no item at all. -/
theorem c10_nonpositive_count (album : Album) (count : Int)
    (hc : count ≤ 0) : proccess_album album count = some [] := by
  have h0 : count.toNat = 0 := Int.toNat_of_nonpos hc
  simp [proccess_album, processedItems, h0, proccessLoop]

/-- C10 witness: the theorem applied to the scenario album with count -3. -/
theorem c10_witness : proccess_album scenarioAlbum (-3) = some [] :=
  c10_nonpositive_count scenarioAlbum (-3) (by decide)

end VKBackup
